import Mathlib

/-!
Verification development for the `traceable` session-recording SDK.

The subject is the retention engine of the SDK: a time-bounded event
buffer (`src/utils/buffer.ts`, class `CircularBuffer`) with a pruning
policy that tries to keep the buffer replayable, the worker-side
processing engine that owns the buffer together with the session state
(`src/worker/recorder.worker.ts` and its sibling revision), and the
export pipeline that serializes the buffer into a zip bundle.

Conventions of the shallow embedding:
* JavaScript numbers used as millisecond timestamps are modelled as `Int`.
* The mutable `this.buffer` array becomes an explicit `List` field and
  each mutating method becomes a state-passing function.
* `Date.now()` is an explicit `now : Int` argument threaded to the
  functions that read the wall clock.
* JSON documents are modelled at the document-tree level (`Json` below);
  the textual encoding/decoding performed by `JSON.stringify` /
  `JSON.parse` and the byte compression performed by `fflate.zipSync` /
  `unzipSync` are external, entry- and document-preserving codecs, so a
  zip archive is modelled as the list of its named entries.
-/

/-- rrweb's `EventType` enum (`DomContentLoaded = 0`, `Load = 1`,
`FullSnapshot = 2`, `IncrementalSnapshot = 3`, `Meta = 4`, `Custom = 5`,
`Plugin = 6`).  The retention engine only distinguishes `FullSnapshot`
from everything else. -/
inductive EventType where
  | DomContentLoaded
  | Load
  | FullSnapshot
  | IncrementalSnapshot
  | Meta
  | Custom
  | Plugin
deriving DecidableEq, Repr

/-- The numeric code used when an event is serialized to JSON. -/
def EventType.code : EventType → Int
  | .DomContentLoaded => 0
  | .Load => 1
  | .FullSnapshot => 2
  | .IncrementalSnapshot => 3
  | .Meta => 4
  | .Custom => 5
  | .Plugin => 6

/-- Inverse of `EventType.code`, as used when parsing an event back. -/
def EventType.ofCode : Int → Option EventType
  | 0 => some .DomContentLoaded
  | 1 => some .Load
  | 2 => some .FullSnapshot
  | 3 => some .IncrementalSnapshot
  | 4 => some .Meta
  | 5 => some .Custom
  | 6 => some .Plugin
  | _ => none

/-- A JSON document tree: the value space of `JSON.stringify` /
`JSON.parse`.  Object fields are kept in insertion order. -/
inductive Json where
  | null : Json
  | bool : Bool → Json
  | num : Int → Json
  | str : String → Json
  | arr : List Json → Json
  | obj : List (String × Json) → Json
deriving Repr

/-- rrweb's `eventWithTime`: a tagged event with an opaque payload and a
millisecond timestamp. -/
structure EventWithTime where
  type : EventType
  data : Json
  timestamp : Int
deriving Repr

/--
`CircularBuffer` from `src/utils/buffer.ts`: the ordered event sequence
plus the configured retention window `maxAgeMs`.
-/
structure CircularBuffer where
  buffer : List EventWithTime
  maxAgeMs : Int
deriving Repr

namespace CircularBuffer

/-- `new CircularBuffer(maxAgeMs)` (the TypeScript default argument is
30000). -/
def init (maxAgeMs : Int) : CircularBuffer :=
  { buffer := [], maxAgeMs := maxAgeMs }

/-- The backward `for (let i = endIndex - 1; i >= 0; i--)` scan used by
the pruning code: index of the last `FullSnapshot` in the list, if any. -/
def lastSnapshotIndex : List EventWithTime → Option Nat
  | [] => none
  | e :: rest =>
    match lastSnapshotIndex rest with
    | some i => some (i + 1)
    | none => if e.type = EventType.FullSnapshot then some 0 else none

/-- `keepLastSnapshotAndClearOthers(endIndex)`: scan `[0, endIndex)`
backward for the last `FullSnapshot`; keep exactly that one event, or
clear everything when there is none. -/
def keepLastSnapshotAndClearOthers (l : List EventWithTime) (endIndex : Nat) :
    List EventWithTime :=
  match lastSnapshotIndex (l.take endIndex) with
  | some i =>
    match l[i]? with
    | some e => [e]
    | none => []
  | none => []

/-- `CircularBuffer.prune`, run against wall-clock time `now`:

1. empty buffer: return;
2. `firstValidIndex` = first index with `timestamp >= cutoff`;
3. `firstValidIndex == 0`: nothing to prune;
4. no valid index: keep only the last `FullSnapshot` (if any);
5. `firstValidIndex > 0`: look backward from `firstValidIndex - 1` for
   the nearest `FullSnapshot`; drop everything before it if found,
   otherwise drop exactly the expired front `[0, firstValidIndex)`. -/
def prune (now : Int) (b : CircularBuffer) : CircularBuffer :=
  if b.buffer.length = 0 then b
  else
    let cutoff := now - b.maxAgeMs
    match b.buffer.findIdx? (fun e => decide (cutoff ≤ e.timestamp)) with
    | some 0 => b
    | none =>
      { b with buffer := keepLastSnapshotAndClearOthers b.buffer b.buffer.length }
    | some (k + 1) =>
      match lastSnapshotIndex (b.buffer.take (k + 1)) with
      | some s =>
        if 0 < s then { b with buffer := b.buffer.drop s } else b
      | none => { b with buffer := b.buffer.drop (k + 1) }

/-- `add(event)`: push to the end, then prune. -/
def add (now : Int) (b : CircularBuffer) (e : EventWithTime) : CircularBuffer :=
  prune now { b with buffer := b.buffer ++ [e] }

/-- `getAll()`: return a point-in-time copy of the event sequence. -/
def getAll (b : CircularBuffer) : List EventWithTime :=
  b.buffer

/-- `getAll()` as a state-passing method call: the returned copy together
with the buffer the object holds afterwards (the method body only reads
`this.buffer`). -/
def getAllS (b : CircularBuffer) : List EventWithTime × CircularBuffer :=
  (b.buffer, b)

/-- `clear()`. -/
def clear (b : CircularBuffer) : CircularBuffer :=
  { b with buffer := [] }

/-- A whole session: fold `add` over a list of `(now, event)` calls. -/
def addAll (b : CircularBuffer) (calls : List (Int × EventWithTime)) :
    CircularBuffer :=
  calls.foldl (fun acc c => acc.add c.1 c.2) b

end CircularBuffer

/-- Field access on a JSON object (`obj[k]` after `JSON.parse`). -/
def Json.getField (j : Json) (k : String) : Option Json :=
  match j with
  | .obj fields => (fields.find? (fun p => p.1 == k)).map (fun p => p.2)
  | _ => none

/-- How `JSON.stringify` renders one `eventWithTime`: an object with the
`type` code, the opaque `data` payload and the `timestamp`. -/
def eventToJson (e : EventWithTime) : Json :=
  .obj [("type", .num e.type.code), ("data", e.data), ("timestamp", .num e.timestamp)]

/-- How a replay tool's `JSON.parse` side reads one event back. -/
def jsonToEvent (j : Json) : Option EventWithTime :=
  match j.getField "type" with
  | some (.num c) =>
    match EventType.ofCode c with
    | some ty =>
      match j.getField "data" with
      | some d =>
        match j.getField "timestamp" with
        | some (.num ts) => some { type := ty, data := d, timestamp := ts }
        | _ => none
      | none => none
    | none => none
  | _ => none

/-- Decoding `recording.json`: the document must be an array and every
element must parse as an event. -/
def decodeEventArray : Json → Option (List EventWithTime)
  | .arr l => l.mapM jsonToEvent
  | _ => none

/-- A zip archive, modelled as its list of named entries, each entry
holding the JSON document whose encoded bytes it stores (`zipSync` /
`unzipSync` preserve entries byte-for-byte). -/
def Archive := List (String × Json)

/-- Retrieve a named entry from an archive. -/
def Archive.lookupEntry (a : Archive) (name : String) : Option Json :=
  (List.find? (fun p => p.1 == name) a).map (fun p => p.2)

/-- Ambient data the worker reads from its environment when exporting
(`navigator.userAgent`, `self.location.href`). -/
structure WorkerEnv where
  userAgent : String
  url : String

/-- The module-level mutable state of the recorder worker
(`src/worker/recorder.worker.ts` and its fuller sibling revision):
the owned `CircularBuffer` plus the session state (`userInfo`, `tags`,
`breadcrumbs`). -/
structure WorkerState where
  buffer : CircularBuffer
  userInfo : Json
  tags : List (String × String)
  breadcrumbs : List Json

namespace Worker

/-- Worker start-up: `new CircularBuffer(30000)`, `userInfo = null`,
empty tags and breadcrumbs. -/
def initState : WorkerState :=
  { buffer := CircularBuffer.init 30000, userInfo := .null, tags := [], breadcrumbs := [] }

/-- `api.setBufferSize(ms)` as implemented in
`src/worker/recorder.worker.ts`: `buffer = new CircularBuffer(ms)` —
the old buffer instance (and its contents) is discarded wholesale. -/
def setBufferSize (s : WorkerState) (ms : Int) : WorkerState :=
  { s with buffer := CircularBuffer.init ms }

/-- `api.setBufferSize(ms)` in the sibling worker revision (the one with
tags and breadcrumbs): the reassignment is commented out and the call
only logs a warning, so the state is untouched. -/
def setBufferSizeNoResize (s : WorkerState) (ms : Int) : WorkerState :=
  let _ := ms
  s

/-- `api.setUserInfo(info)`. -/
def setUserInfo (s : WorkerState) (info : Json) : WorkerState :=
  { s with userInfo := info }

/-- `tags[key] = value` on a JavaScript object: overwrite in place when
the key exists, otherwise append the new key. -/
def setTagMap (m : List (String × String)) (k v : String) :
    List (String × String) :=
  if m.any (fun p => p.1 == k) then
    m.map (fun p => if p.1 == k then (k, v) else p)
  else
    m ++ [(k, v)]

/-- `api.setTag(key, value)`. -/
def setTag (s : WorkerState) (k v : String) : WorkerState :=
  { s with tags := setTagMap s.tags k v }

/-- `api.addBreadcrumb`'s list manipulation: `push`, then `shift` once
when the length exceeds 100. -/
def addBreadcrumbList {α : Type} (l : List α) (b : α) : List α :=
  let pushed := l ++ [b]
  if 100 < pushed.length then pushed.drop 1 else pushed

/-- `api.addBreadcrumb(breadcrumb)`. -/
def addBreadcrumb (s : WorkerState) (b : Json) : WorkerState :=
  { s with breadcrumbs := addBreadcrumbList s.breadcrumbs b }

/-- `api.addEvent(event)`: delegate to `buffer.add`. -/
def addEvent (now : Int) (s : WorkerState) (e : EventWithTime) : WorkerState :=
  { s with buffer := s.buffer.add now e }

/-- The `meta.json` document built by `api.exportData`. -/
def metaJson (env : WorkerEnv) (now : Int) (reason : String) (s : WorkerState) :
    Json :=
  .obj [("timestamp", .num now),
        ("reason", .str reason),
        ("userInfo", s.userInfo),
        ("tags", .obj (s.tags.map (fun p => (p.1, Json.str p.2)))),
        ("breadcrumbs", .arr s.breadcrumbs),
        ("userAgent", .str env.userAgent),
        ("url", .str env.url)]

/-- `api.exportData(reason)`: read `buffer.getAll()`, serialize the event
array into `recording.json` and the metadata into `meta.json`, and zip
the two entries.  Returned as (archive, state after the call): the body
only reads the buffer and the session state. -/
def exportData (env : WorkerEnv) (now : Int) (reason : String)
    (s : WorkerState) : Archive × WorkerState :=
  let read := s.buffer.getAllS
  let events := read.1
  let s1 : WorkerState := { s with buffer := read.2 }
  let recording : Json := .arr (events.map eventToJson)
  ([("recording.json", recording), ("meta.json", metaJson env now reason s1)], s1)

/-- `api.clear()` (fuller revision): clear the buffer, reset breadcrumbs
and tags. -/
def clear (s : WorkerState) : WorkerState :=
  { s with buffer := s.buffer.clear, breadcrumbs := [], tags := [] }

end Worker

namespace CircularBuffer

theorem lastSnapshotIndex_lt_length :
    ∀ {l : List EventWithTime} {i : Nat},
      lastSnapshotIndex l = some i → i < l.length := by
  intro l
  induction l with
  | nil => intro i h; simp [lastSnapshotIndex] at h
  | cons e rest ih =>
    intro i h
    rw [lastSnapshotIndex] at h
    cases hr : lastSnapshotIndex rest with
    | some j =>
      simp only [hr, Option.some.injEq] at h
      subst h
      have := ih hr
      simp only [List.length_cons]
      omega
    | none =>
      simp only [hr] at h
      by_cases hty : e.type = EventType.FullSnapshot
      · simp only [hty, if_true, Option.some.injEq] at h
        subst h
        simp
      · simp [hty] at h

theorem lastSnapshotIndex_spec :
    ∀ {l : List EventWithTime} {i : Nat},
      lastSnapshotIndex l = some i →
      ∃ e, l[i]? = some e ∧ e.type = EventType.FullSnapshot := by
  intro l
  induction l with
  | nil => intro i h; simp [lastSnapshotIndex] at h
  | cons e rest ih =>
    intro i h
    rw [lastSnapshotIndex] at h
    cases hr : lastSnapshotIndex rest with
    | some j =>
      simp only [hr, Option.some.injEq] at h
      subst h
      obtain ⟨e2, hget, hty⟩ := ih hr
      exact ⟨e2, by simpa using hget, hty⟩
    | none =>
      simp only [hr] at h
      by_cases hty : e.type = EventType.FullSnapshot
      · simp only [hty, if_true, Option.some.injEq] at h
        subst h
        exact ⟨e, by simp, hty⟩
      · simp [hty] at h

theorem lastSnapshotIndex_eq_none_iff :
    ∀ {l : List EventWithTime},
      lastSnapshotIndex l = none ↔
        ∀ e ∈ l, ¬ e.type = EventType.FullSnapshot := by
  intro l
  induction l with
  | nil => simp [lastSnapshotIndex]
  | cons e rest ih =>
    rw [lastSnapshotIndex]
    cases hr : lastSnapshotIndex rest with
    | some j =>
      simp only [List.mem_cons]
      constructor
      · intro h; simp at h
      · intro h
        exfalso
        obtain ⟨e2, hget, hty⟩ := lastSnapshotIndex_spec hr
        exact h e2 (Or.inr (List.getElem?_mem hget)) hty
    | none =>
      rw [hr] at ih
      by_cases hty : e.type = EventType.FullSnapshot
      · simp only [hty, if_true]
        constructor
        · intro h; simp at h
        · intro h
          exact absurd hty (h e (List.mem_cons_self e rest))
      · simp only [hty, if_false, List.mem_cons]
        constructor
        · intro _ e2 hmem
          rcases hmem with rfl | hmem
          · exact hty
          · exact (ih.mp rfl) e2 hmem
        · intro _; trivial

theorem lastSnapshotIndex_maximal :
    ∀ {l : List EventWithTime} {i : Nat},
      lastSnapshotIndex l = some i →
      ∀ j, i < j → ∀ e2, l[j]? = some e2 → ¬ e2.type = EventType.FullSnapshot := by
  intro l
  induction l with
  | nil => intro i h; simp [lastSnapshotIndex] at h
  | cons e rest ih =>
    intro i h j hij e2 hget
    rw [lastSnapshotIndex] at h
    cases hr : lastSnapshotIndex rest with
    | some k =>
      simp only [hr, Option.some.injEq] at h
      subst h
      match j, hij with
      | j + 1, hij =>
        have hget2 : rest[j]? = some e2 := by simpa using hget
        exact ih hr j (by omega) e2 hget2
    | none =>
      simp only [hr] at h
      by_cases hty : e.type = EventType.FullSnapshot
      · simp only [hty, if_true, Option.some.injEq] at h
        subst h
        match j, hij with
        | j + 1, _ =>
          have hget2 : rest[j]? = some e2 := by simpa using hget
          exact lastSnapshotIndex_eq_none_iff.mp hr e2 (List.getElem?_mem hget2)
      · simp [hty] at h

theorem lastSnapshotIndex_isSome_of_mem {l : List EventWithTime} {e : EventWithTime}
    (hmem : e ∈ l) (hty : e.type = EventType.FullSnapshot) :
    ∃ i, lastSnapshotIndex l = some i := by
  cases h : lastSnapshotIndex l with
  | some i => exact ⟨i, rfl⟩
  | none => exact absurd hty (lastSnapshotIndex_eq_none_iff.mp h e hmem)

end CircularBuffer

theorem head?_drop_eq {α : Type} (l : List α) (n : Nat) :
    (l.drop n).head? = l[n]? := by
  rw [List.head?_eq_getElem?, List.getElem?_drop, Nat.add_zero]

namespace CircularBuffer

theorem keepLast_of_snapshot {l : List EventWithTime} {e : EventWithTime}
    (hmem : e ∈ l) (hty : e.type = EventType.FullSnapshot) :
    ∃ i e2, lastSnapshotIndex l = some i ∧ l[i]? = some e2 ∧
      e2.type = EventType.FullSnapshot ∧
      keepLastSnapshotAndClearOthers l l.length = [e2] := by
  obtain ⟨i, hi⟩ := lastSnapshotIndex_isSome_of_mem hmem hty
  obtain ⟨e2, hget, hty2⟩ := lastSnapshotIndex_spec hi
  refine ⟨i, e2, hi, hget, hty2, ?_⟩
  unfold keepLastSnapshotAndClearOthers
  simp only [List.take_length, hi, hget]

theorem keepLast_of_no_snapshot {l : List EventWithTime}
    (h : ∀ e ∈ l, ¬ e.type = EventType.FullSnapshot) :
    keepLastSnapshotAndClearOthers l l.length = [] := by
  unfold keepLastSnapshotAndClearOthers
  simp only [List.take_length, lastSnapshotIndex_eq_none_iff.mpr h]

theorem length_pos_of_findIdx?_eq_some {l : List EventWithTime} {p : EventWithTime → Bool}
    {i : Nat} (hf : l.findIdx? p = some i) : i < l.length := by
  obtain ⟨hlt, -, -⟩ := List.findIdx?_eq_some_iff_getElem.mp hf
  exact hlt

theorem prune_of_empty (now : Int) (b : CircularBuffer) (h : b.buffer = []) :
    prune now b = b := by
  unfold prune
  rw [if_pos (by simp [h])]

theorem prune_of_none_stale (now : Int) (b : CircularBuffer)
    (hf : b.buffer.findIdx? (fun e => decide (now - b.maxAgeMs ≤ e.timestamp)) = some 0) :
    prune now b = b := by
  have hlen : ¬ b.buffer.length = 0 := by
    have := length_pos_of_findIdx?_eq_some hf
    omega
  unfold prune
  rw [if_neg hlen]
  simp only [hf]

theorem prune_of_all_stale (now : Int) (b : CircularBuffer)
    (hne : b.buffer ≠ [])
    (hf : b.buffer.findIdx? (fun e => decide (now - b.maxAgeMs ≤ e.timestamp)) = none) :
    prune now b =
      { b with buffer := keepLastSnapshotAndClearOthers b.buffer b.buffer.length } := by
  have hlen : ¬ b.buffer.length = 0 := by
    simpa [List.length_eq_zero] using hne
  unfold prune
  rw [if_neg hlen]
  simp only [hf]

theorem prune_of_part_stale_snap (now : Int) (b : CircularBuffer) {k s : Nat}
    (hf : b.buffer.findIdx? (fun e => decide (now - b.maxAgeMs ≤ e.timestamp)) = some (k + 1))
    (hs : lastSnapshotIndex (b.buffer.take (k + 1)) = some s) :
    prune now b = if 0 < s then { b with buffer := b.buffer.drop s } else b := by
  have hlen : ¬ b.buffer.length = 0 := by
    have := length_pos_of_findIdx?_eq_some hf
    omega
  unfold prune
  rw [if_neg hlen]
  simp only [hf, hs]

theorem prune_of_part_stale_nosnap (now : Int) (b : CircularBuffer) {k : Nat}
    (hf : b.buffer.findIdx? (fun e => decide (now - b.maxAgeMs ≤ e.timestamp)) = some (k + 1))
    (hs : lastSnapshotIndex (b.buffer.take (k + 1)) = none) :
    prune now b = { b with buffer := b.buffer.drop (k + 1) } := by
  have hlen : ¬ b.buffer.length = 0 := by
    have := length_pos_of_findIdx?_eq_some hf
    omega
  unfold prune
  rw [if_neg hlen]
  simp only [hf, hs]

end CircularBuffer

namespace CircularBuffer

theorem prune_headSnap (now : Int) (b : CircularBuffer)
    (h : ∃ e, b.buffer.head? = some e ∧ e.type = EventType.FullSnapshot) :
    ∃ e, (prune now b).buffer.head? = some e ∧ e.type = EventType.FullSnapshot := by
  obtain ⟨e0, hh, hty⟩ := h
  have hne : b.buffer ≠ [] := by
    intro hnil
    rw [hnil] at hh
    simp at hh
  cases hf : b.buffer.findIdx? (fun e => decide (now - b.maxAgeMs ≤ e.timestamp)) with
  | none =>
    rw [prune_of_all_stale now b hne hf]
    have hmem : e0 ∈ b.buffer := List.mem_of_mem_head? (Option.mem_def.mpr hh)
    obtain ⟨i, e2, hi, hget, hty2, hkeep⟩ := keepLast_of_snapshot hmem hty
    exact ⟨e2, by simp [hkeep], hty2⟩
  | some k =>
    cases k with
    | zero =>
      rw [prune_of_none_stale now b hf]
      exact ⟨e0, hh, hty⟩
    | succ k =>
      have htake : (b.buffer.take (k + 1)).head? = some e0 := by
        rw [List.head?_eq_getElem?, List.getElem?_take_of_lt (Nat.succ_pos k),
          ← List.head?_eq_getElem?]
        exact hh
      have hmem0 : e0 ∈ b.buffer.take (k + 1) :=
        List.mem_of_mem_head? (Option.mem_def.mpr htake)
      obtain ⟨s, hs⟩ := lastSnapshotIndex_isSome_of_mem hmem0 hty
      obtain ⟨e2, hget, hty2⟩ := lastSnapshotIndex_spec hs
      have hslt : s < k + 1 := by
        have hlen := lastSnapshotIndex_lt_length hs
        rw [List.length_take] at hlen
        omega
      have hget2 : b.buffer[s]? = some e2 := by
        rw [← List.getElem?_take_of_lt hslt]
        exact hget
      rw [prune_of_part_stale_snap now b hf hs]
      by_cases h0 : 0 < s
      · rw [if_pos h0]
        refine ⟨e2, ?_, hty2⟩
        show (b.buffer.drop s).head? = some e2
        rw [head?_drop_eq]
        exact hget2
      · rw [if_neg h0]
        exact ⟨e0, hh, hty⟩

theorem add_headSnap (now : Int) (b : CircularBuffer) (e : EventWithTime)
    (h : ∃ e0, b.buffer.head? = some e0 ∧ e0.type = EventType.FullSnapshot) :
    ∃ e0, (b.add now e).buffer.head? = some e0 ∧ e0.type = EventType.FullSnapshot := by
  obtain ⟨e0, hh, hty⟩ := h
  have hne : b.buffer ≠ [] := by
    intro hnil
    rw [hnil] at hh
    simp at hh
  apply prune_headSnap
  refine ⟨e0, ?_, hty⟩
  show (b.buffer ++ [e]).head? = some e0
  rw [List.head?_append_of_ne_nil _ hne]
  exact hh

theorem addAll_headSnap :
    ∀ (calls : List (Int × EventWithTime)) (b : CircularBuffer),
      (∃ e0, b.buffer.head? = some e0 ∧ e0.type = EventType.FullSnapshot) →
      ∃ e0, (b.addAll calls).buffer.head? = some e0 ∧
        e0.type = EventType.FullSnapshot := by
  intro calls
  induction calls with
  | nil => intro b h; exact h
  | cons c cs ih =>
    intro b h
    show ∃ e0, ((b.add c.1 c.2).addAll cs).buffer.head? = some e0 ∧
      e0.type = EventType.FullSnapshot
    exact ih _ (add_headSnap c.1 b c.2 h)

theorem prune_sublist (now : Int) (b : CircularBuffer) :
    ((prune now b).buffer).Sublist b.buffer := by
  by_cases hnil : b.buffer = []
  · rw [prune_of_empty now b hnil]
  cases hf : b.buffer.findIdx? (fun e => decide (now - b.maxAgeMs ≤ e.timestamp)) with
  | none =>
    rw [prune_of_all_stale now b hnil hf]
    show (keepLastSnapshotAndClearOthers b.buffer b.buffer.length).Sublist b.buffer
    unfold keepLastSnapshotAndClearOthers
    rw [List.take_length]
    cases hs : lastSnapshotIndex b.buffer with
    | some i =>
      obtain ⟨e2, hget, -⟩ := lastSnapshotIndex_spec hs
      simp only [hget]
      rw [List.singleton_sublist]
      exact List.getElem?_mem hget
    | none => simp
  | some k =>
    cases k with
    | zero => rw [prune_of_none_stale now b hf]
    | succ k =>
      cases hs : lastSnapshotIndex (b.buffer.take (k + 1)) with
      | some s =>
        rw [prune_of_part_stale_snap now b hf hs]
        by_cases h0 : 0 < s
        · rw [if_pos h0]
          exact List.drop_sublist s b.buffer
        · rw [if_neg h0]
      | none =>
        rw [prune_of_part_stale_nosnap now b hf hs]
        exact List.drop_sublist (k + 1) b.buffer

end CircularBuffer

theorem addBreadcrumbList_foldl_small {α : Type} :
    ∀ (bs : List α), bs.length ≤ 100 →
      bs.foldl Worker.addBreadcrumbList [] = bs := by
  intro bs
  induction bs using List.reverseRecOn with
  | nil => intro _; rfl
  | append_singleton xs x ih =>
    intro h
    have hxs : xs.length ≤ 99 := by
      simp only [List.length_append, List.length_cons, List.length_nil] at h
      omega
    rw [List.foldl_append, List.foldl_cons, List.foldl_nil, ih (by omega)]
    unfold Worker.addBreadcrumbList
    rw [if_neg (by simp only [List.length_append, List.length_cons, List.length_nil]; omega)]

theorem addBreadcrumbList_foldl_cap {α : Type} :
    ∀ (bs : List α),
      bs.foldl Worker.addBreadcrumbList [] = bs.drop (bs.length - 100) := by
  intro bs
  induction bs using List.reverseRecOn with
  | nil => rfl
  | append_singleton xs x ih =>
    rw [List.foldl_append, List.foldl_cons, List.foldl_nil, ih]
    unfold Worker.addBreadcrumbList
    by_cases hn : xs.length < 100
    · have h1 : xs.length - 100 = 0 := by omega
      have h2 : (xs ++ [x]).length - 100 = 0 := by
        simp only [List.length_append, List.length_cons, List.length_nil]
        omega
      rw [h1, h2, List.drop_zero, List.drop_zero]
      rw [if_neg (by simp only [List.length_append, List.length_cons, List.length_nil]; omega)]
    · have hge : 100 ≤ xs.length := by omega
      have hlendrop : (xs.drop (xs.length - 100)).length = 100 := by
        rw [List.length_drop]
        omega
      rw [if_pos (by
        simp only [List.length_append, hlendrop, List.length_cons, List.length_nil]
        omega)]
      rw [List.drop_append_of_le_length (by rw [hlendrop]; omega),
        List.drop_drop]
      have harith : xs.length - 100 + 1 = (xs ++ [x]).length - 100 := by
        simp only [List.length_append, List.length_cons, List.length_nil]
        omega
      rw [harith, List.drop_append_of_le_length (by
        simp only [List.length_append, List.length_cons, List.length_nil]
        omega)]

theorem addEvent_foldl_buffer :
    ∀ (calls : List (Int × EventWithTime)) (st : WorkerState),
      (calls.foldl (fun st c => Worker.addEvent c.1 st c.2) st).buffer
        = st.buffer.addAll calls := by
  intro calls
  induction calls with
  | nil => intro st; rfl
  | cons c cs ih =>
    intro st
    rw [List.foldl_cons]
    rw [ih]
    rfl

theorem jsonToEvent_eventToJson (e : EventWithTime) :
    jsonToEvent (eventToJson e) = some e := by
  cases e with
  | mk ty d ts => cases ty <;> rfl

theorem mapM_jsonToEvent_map_eventToJson (l : List EventWithTime) :
    (l.map eventToJson).mapM jsonToEvent = some l := by
  induction l with
  | nil => rfl
  | cons e rest ih =>
    rw [List.map_cons, List.mapM_cons, jsonToEvent_eventToJson, ih]
    rfl

/-- C1 (counterexample): adding only incremental events
`Incremental@0`, `Incremental@100`, `Incremental@2000` (with wall-clock
time equal to each event's timestamp, `maxAgeMs = 1000`) leaves the
buffer as `[Incremental@2000]`: its head is neither the very first event
ever added nor a `FullSnapshot`, so the window-validity invariant as
stated fails. -/
theorem claim_C1_counterexample :
    ¬ (∃ e, ((CircularBuffer.init 1000).addAll
        [(0, ⟨EventType.IncrementalSnapshot, Json.null, 0⟩),
         (100, ⟨EventType.IncrementalSnapshot, Json.null, 100⟩),
         (2000, ⟨EventType.IncrementalSnapshot, Json.null, 2000⟩)]).buffer.head?
          = some e ∧
      (e = ⟨EventType.IncrementalSnapshot, Json.null, 0⟩ ∨
        e.type = EventType.FullSnapshot)) := by
  have hres : ((CircularBuffer.init 1000).addAll
      [(0, ⟨EventType.IncrementalSnapshot, Json.null, 0⟩),
       (100, ⟨EventType.IncrementalSnapshot, Json.null, 100⟩),
       (2000, ⟨EventType.IncrementalSnapshot, Json.null, 2000⟩)]).buffer
      = [⟨EventType.IncrementalSnapshot, Json.null, 2000⟩] := rfl
  rintro ⟨e, hh, hc⟩
  rw [hres] at hh
  simp only [List.head?_cons, Option.some.injEq] at hh
  subst hh
  rcases hc with hc | hc
  · simp [EventWithTime.mk.injEq] at hc
  · simp [EventWithTime.mk.injEq] at hc

/-- C1 (amended): for every sequence of `add` calls whose FIRST added
event is of kind `FullSnapshot`, after the pruning that each add
triggers, the event at index 0 of `getAll()` is either the very first
event ever added or an event of kind `FullSnapshot` (and the buffer is
never empty). -/
theorem claim_C1_amended (maxAge : Int) (c0 : Int × EventWithTime)
    (calls : List (Int × EventWithTime))
    (h : c0.2.type = EventType.FullSnapshot) :
    ∃ e, ((CircularBuffer.init maxAge).addAll (c0 :: calls)).buffer.head? = some e ∧
      (e = c0.2 ∨ e.type = EventType.FullSnapshot) := by
  have hbase : ∃ e0, ((CircularBuffer.init maxAge).add c0.1 c0.2).buffer.head?
      = some e0 ∧ e0.type = EventType.FullSnapshot := by
    apply CircularBuffer.prune_headSnap
    exact ⟨c0.2, rfl, h⟩
  have hstep : (CircularBuffer.init maxAge).addAll (c0 :: calls)
      = ((CircularBuffer.init maxAge).add c0.1 c0.2).addAll calls := rfl
  rw [hstep]
  obtain ⟨e, hh, hty⟩ := CircularBuffer.addAll_headSnap calls _ hbase
  exact ⟨e, hh, Or.inr hty⟩

/-- Witness for C1 (amended) at a concrete session: a snapshot at t=0
followed by an incremental at t=2000 with `maxAgeMs = 1000`. -/
theorem claim_C1_witness :
    ∃ e, ((CircularBuffer.init 1000).addAll
        ((0, ⟨EventType.FullSnapshot, Json.null, 0⟩) ::
         [(2000, ⟨EventType.IncrementalSnapshot, Json.null, 2000⟩)])).buffer.head?
          = some e ∧
      (e = (⟨EventType.FullSnapshot, Json.null, 0⟩ : EventWithTime) ∨
        e.type = EventType.FullSnapshot) :=
  claim_C1_amended 1000 (0, ⟨EventType.FullSnapshot, Json.null, 0⟩)
    [(2000, ⟨EventType.IncrementalSnapshot, Json.null, 2000⟩)] rfl

/-- C2: if the buffer contains at least one `FullSnapshot` immediately
before pruning runs, pruning never leaves the buffer empty. -/
theorem claim_C2 (now : Int) (b : CircularBuffer)
    (h : ∃ e ∈ b.buffer, e.type = EventType.FullSnapshot) :
    (CircularBuffer.prune now b).buffer ≠ [] := by
  obtain ⟨e, hmem, hty⟩ := h
  have hne : b.buffer ≠ [] := List.ne_nil_of_mem hmem
  cases hf : b.buffer.findIdx? (fun e => decide (now - b.maxAgeMs ≤ e.timestamp)) with
  | none =>
    rw [CircularBuffer.prune_of_all_stale now b hne hf]
    obtain ⟨i, e2, -, -, -, hkeep⟩ := CircularBuffer.keepLast_of_snapshot hmem hty
    show CircularBuffer.keepLastSnapshotAndClearOthers b.buffer b.buffer.length ≠ []
    rw [hkeep]
    simp
  | some k =>
    cases k with
    | zero =>
      rw [CircularBuffer.prune_of_none_stale now b hf]
      exact hne
    | succ k =>
      have hklen : k + 1 < b.buffer.length :=
        CircularBuffer.length_pos_of_findIdx?_eq_some hf
      cases hs : CircularBuffer.lastSnapshotIndex (b.buffer.take (k + 1)) with
      | some s =>
        rw [CircularBuffer.prune_of_part_stale_snap now b hf hs]
        have hslen : s < b.buffer.length := by
          have := CircularBuffer.lastSnapshotIndex_lt_length hs
          rw [List.length_take] at this
          omega
        by_cases h0 : 0 < s
        · rw [if_pos h0]
          show b.buffer.drop s ≠ []
          rw [ne_eq, List.drop_eq_nil_iff]
          omega
        · rw [if_neg h0]
          exact hne
      | none =>
        rw [CircularBuffer.prune_of_part_stale_nosnap now b hf hs]
        show b.buffer.drop (k + 1) ≠ []
        rw [ne_eq, List.drop_eq_nil_iff]
        omega

/-- Witness for C2: pruning a buffer holding one stale snapshot leaves
it non-empty. -/
theorem claim_C2_witness :
    (CircularBuffer.prune 5000
        ⟨[⟨EventType.FullSnapshot, Json.null, 0⟩], 1000⟩).buffer ≠ [] :=
  claim_C2 5000 ⟨[⟨EventType.FullSnapshot, Json.null, 0⟩], 1000⟩
    ⟨⟨EventType.FullSnapshot, Json.null, 0⟩, by simp, rfl⟩

/-- C3: when every event is strictly below the cutoff `now - maxAgeMs`,
pruning collapses the buffer to exactly the last `FullSnapshot`
(a singleton) when one exists, and empties it when none exists. -/
theorem claim_C3 (now : Int) (b : CircularBuffer)
    (hall : ∀ e ∈ b.buffer, e.timestamp < now - b.maxAgeMs) :
    ((∃ e ∈ b.buffer, e.type = EventType.FullSnapshot) →
      ∃ (i : Nat) (e : EventWithTime),
        b.buffer[i]? = some e ∧ e.type = EventType.FullSnapshot ∧
        (∀ j, i < j → ∀ e2 : EventWithTime, b.buffer[j]? = some e2 →
          ¬ e2.type = EventType.FullSnapshot) ∧
        (CircularBuffer.prune now b).buffer = [e]) ∧
    ((∀ e ∈ b.buffer, ¬ e.type = EventType.FullSnapshot) →
      (CircularBuffer.prune now b).buffer = []) := by
  by_cases hnil : b.buffer = []
  · constructor
    · rintro ⟨e, hmem, -⟩
      rw [hnil] at hmem
      simp at hmem
    · intro _
      rw [CircularBuffer.prune_of_empty now b hnil, hnil]
  · have hf : b.buffer.findIdx? (fun e => decide (now - b.maxAgeMs ≤ e.timestamp))
        = none := by
      rw [List.findIdx?_eq_none_iff]
      intro e hmem
      simp only [decide_eq_false_iff_not]
      have := hall e hmem
      omega
    have hP := CircularBuffer.prune_of_all_stale now b hnil hf
    constructor
    · rintro ⟨e, hmem, hty⟩
      obtain ⟨i, e2, hi, hget, hty2, hkeep⟩ :=
        CircularBuffer.keepLast_of_snapshot hmem hty
      refine ⟨i, e2, hget, hty2, ?_, ?_⟩
      · intro j hij e3 hget3
        exact CircularBuffer.lastSnapshotIndex_maximal hi j hij e3 hget3
      · rw [hP]
        exact hkeep
    · intro hnone
      rw [hP]
      exact CircularBuffer.keepLast_of_no_snapshot hnone

/-- Witness for C3 (mirrors Scenario B of the spec): only incrementals
`@100, @200` with `now = 1500`, `maxAgeMs = 1000` — prune empties the
buffer. -/
theorem claim_C3_witness :
    (CircularBuffer.prune 1500
        ⟨[⟨EventType.IncrementalSnapshot, Json.null, 100⟩,
          ⟨EventType.IncrementalSnapshot, Json.null, 200⟩], 1000⟩).buffer = [] :=
  (claim_C3 1500
      ⟨[⟨EventType.IncrementalSnapshot, Json.null, 100⟩,
        ⟨EventType.IncrementalSnapshot, Json.null, 200⟩], 1000⟩
      (by decide)).2 (by decide)

/-- C4 (Scenario A): `maxAgeMs = 1000`; adding `FullSnapshot@0`,
`Incremental@500`, `Incremental@1800` (wall clock = each event's
timestamp, hence 1800 at the final add) keeps all three events: the
nearest snapshot before the first in-window event anchors the retained
slice even though `@0` is older than the nominal cutoff 800. -/
theorem claim_C4 :
    ((CircularBuffer.init 1000).addAll
        [(0, ⟨EventType.FullSnapshot, Json.null, 0⟩),
         (500, ⟨EventType.IncrementalSnapshot, Json.null, 500⟩),
         (1800, ⟨EventType.IncrementalSnapshot, Json.null, 1800⟩)]).getAll
      = [⟨EventType.FullSnapshot, Json.null, 0⟩,
         ⟨EventType.IncrementalSnapshot, Json.null, 500⟩,
         ⟨EventType.IncrementalSnapshot, Json.null, 1800⟩] := rfl

/-- C5: `setBufferSize` (as implemented in
`src/worker/recorder.worker.ts`) replaces the buffer with a fresh empty
one carrying the new retention window, and subsequent `addEvent` calls
populate exactly the state a fresh buffer would reach. -/
theorem claim_C5 (s : WorkerState) (ms : Int) :
    (Worker.setBufferSize s ms).buffer.getAll = [] ∧
    (Worker.setBufferSize s ms).buffer.maxAgeMs = ms ∧
    ∀ calls : List (Int × EventWithTime),
      (calls.foldl (fun st c => Worker.addEvent c.1 st c.2)
          (Worker.setBufferSize s ms)).buffer
        = (CircularBuffer.init ms).addAll calls := by
  refine ⟨rfl, rfl, ?_⟩
  intro calls
  rw [addEvent_foldl_buffer]
  rfl

/-- C6: for every buffer state, looking up `recording.json` in
`exportData`'s archive and decoding it yields exactly the sequence
`getAll()` returned at the moment of the call (lossless, order
preserving). -/
theorem claim_C6 (env : WorkerEnv) (now : Int) (reason : String) (s : WorkerState) :
    (((Worker.exportData env now reason s).1).lookupEntry "recording.json").bind
        decodeEventArray
      = some (s.buffer.getAll) := by
  have h1 : ((Worker.exportData env now reason s).1).lookupEntry "recording.json"
      = some (Json.arr ((s.buffer.getAll).map eventToJson)) := rfl
  rw [h1]
  show decodeEventArray (Json.arr ((s.buffer.getAll).map eventToJson))
      = some (s.buffer.getAll)
  exact mapM_jsonToEvent_map_eventToJson _

/-- C7: after 101 `addBreadcrumb` calls starting from an empty log the
stored sequence has length exactly 100, equals the input minus its first
element (FIFO eviction of the oldest), and its head is the second
breadcrumb ever added. -/
theorem claim_C7 {α : Type} (bs : List α) (h : bs.length = 101) :
    bs.foldl Worker.addBreadcrumbList [] = bs.drop 1 ∧
    (bs.foldl Worker.addBreadcrumbList []).length = 100 ∧
    (bs.foldl Worker.addBreadcrumbList []).head? = bs[1]? := by
  have key : bs.foldl Worker.addBreadcrumbList [] = bs.drop 1 := by
    rw [addBreadcrumbList_foldl_cap, h]
  refine ⟨key, ?_, ?_⟩
  · rw [key, List.length_drop, h]
  · rw [key, head?_drop_eq]

/-- Witness for C7 at the concrete 101-element breadcrumb list
`0, 1, …, 100`. -/
theorem claim_C7_witness :
    (List.range 101).foldl Worker.addBreadcrumbList [] = (List.range 101).drop 1 ∧
    ((List.range 101).foldl Worker.addBreadcrumbList []).length = 100 ∧
    ((List.range 101).foldl Worker.addBreadcrumbList []).head?
      = (List.range 101)[1]? :=
  claim_C7 (List.range 101) (by simp)

/-- C8: `exportData` leaves the worker state — the retention buffer and
the session state (identity, tags, breadcrumbs) — exactly as it was, so
a subsequent `getAll()` returns the same sequence as before the export. -/
theorem claim_C8 (env : WorkerEnv) (now : Int) (reason : String) (s : WorkerState) :
    (Worker.exportData env now reason s).2 = s ∧
    ((Worker.exportData env now reason s).2).buffer.getAll = s.buffer.getAll ∧
    ((Worker.exportData env now reason s).2).userInfo = s.userInfo ∧
    ((Worker.exportData env now reason s).2).tags = s.tags ∧
    ((Worker.exportData env now reason s).2).breadcrumbs = s.breadcrumbs :=
  ⟨rfl, rfl, rfl, rfl, rfl⟩

/-- C9: `getAll()` does not mutate the buffer, and calling it twice with
no intervening `add` yields identical sequences (a point-in-time copy in
chronological order). -/
theorem claim_C9 (b : CircularBuffer) :
    (b.getAllS).2 = b ∧
    (b.getAllS).1 = (((b.getAllS).2).getAllS).1 ∧
    (b.getAllS).1 = b.getAll :=
  ⟨rfl, rfl, rfl⟩

/-- C10: the buffer after `add(e)` is always a subsequence of the
previous contents followed by `e` (pruning only removes events, never
reorders, duplicates or fabricates), and in particular the freshly
added event can itself be evicted by the very `add` call that inserted
it (here: `Incremental@5` added at wall-clock 2000 into a buffer holding
`FullSnapshot@0` with `maxAgeMs = 1000`). -/
theorem claim_C10 :
    (∀ (now : Int) (b : CircularBuffer) (e : EventWithTime),
      ((b.add now e).buffer).Sublist (b.buffer ++ [e])) ∧
    ((⟨EventType.IncrementalSnapshot, Json.null, 5⟩ : EventWithTime) ∉
      ((⟨[⟨EventType.FullSnapshot, Json.null, 0⟩], 1000⟩ : CircularBuffer).add 2000
        ⟨EventType.IncrementalSnapshot, Json.null, 5⟩).buffer) := by
  constructor
  · intro now b e
    exact CircularBuffer.prune_sublist now { b with buffer := b.buffer ++ [e] }
  · have hres : ((⟨[⟨EventType.FullSnapshot, Json.null, 0⟩], 1000⟩ :
        CircularBuffer).add 2000
          ⟨EventType.IncrementalSnapshot, Json.null, 5⟩).buffer
        = [⟨EventType.FullSnapshot, Json.null, 0⟩] := rfl
    rw [hres]
    simp [EventWithTime.mk.injEq]
